import Mathlib

/-!
Shallow embedding of the "Multi-Referral-Email-Sending" application
(a Next.js single-page email sender with a Nodemailer-backed API route).

The embedding translates the two source modules:

* `app/page.tsx` (the Composer): `isValidEmail`, the recipient tag input's
  `add` commit operation, `canSubmit`, and the submit handler;
* `app/api/send-email/route.ts` (the Dispatcher): `isValidEmail`,
  `parseCommaOrArray`, `parseRequest` (multipart and JSON paths) and `POST`.

JavaScript strings are modelled as Lean `String`/`List Char`; binary buffers
as `List Nat` (one entry per byte); `null`/`undefined` as `Option`; the
outcome of the awaited `transporter.sendMail` call as a function parameter
returning a success/failure sum.  `POST` returns, besides the HTTP status and
JSON body, the list of transport configurations constructed and the list of
messages handed to `sendMail`, so that "no transport was constructed" and
"no delivery was attempted" are stated as those lists being empty.
-/

/-- Characters removed by JavaScript's `String.prototype.trim`
(WhiteSpace and LineTerminator code points). -/
def isJsWhitespace (c : Char) : Bool :=
  c = ' ' || c = '\t' || c = '\n' || c = '\r' || c = '\x0b' || c = '\x0c' ||
  c = '\u00A0' || c = '\u1680' || ('\u2000' ≤ c && c ≤ '\u200A') ||
  c = '\u2028' || c = '\u2029' || c = '\u202F' || c = '\u205F' ||
  c = '\u3000' || c = '\uFEFF'

/-- Model of JavaScript `s.trim()` on the character list of `s`: drop
whitespace from the front, then from the back. -/
def jsTrim (l : List Char) : List Char :=
  ((l.dropWhile isJsWhitespace).reverse.dropWhile isJsWhitespace).reverse

/-- Model of JavaScript `s.trim()` at the `String` level. -/
def strTrim (s : String) : String := ⟨jsTrim s.data⟩

/-- Model of JavaScript `s.toLowerCase()` restricted to the ASCII range
(`Char.toLower` lowers exactly `A`–`Z`); the application only compares the
result against the ASCII literal `"true"`, where the two agree. -/
def strToLower (s : String) : String := ⟨s.data.map Char.toLower⟩

/-- Split a character list at every occurrence of `sep`, keeping empty
pieces — the semantics of JavaScript `s.split(sep)` for a one-character
separator.  The result is always non-empty. -/
def splitOnChar (sep : Char) : List Char → List (List Char)
  | [] => [[]]
  | c :: cs =>
    match splitOnChar sep cs with
    | [] => [[]]
    | p :: ps => if c = sep then [] :: p :: ps else (c :: p) :: ps

/-- Model of JavaScript `s.split(sep)` at the `String` level. -/
def splitOnStr (sep : Char) (s : String) : List String :=
  (splitOnChar sep s.data).map fun l => ⟨l⟩

/-- Does `hay` start with `needle`? -/
def listStartsWith [DecidableEq α] : List α → List α → Bool
  | [], _ => true
  | _ :: _, [] => false
  | a :: as, b :: bs => a = b && listStartsWith as bs

/-- Does `hay` contain `needle` as a contiguous run?  Models JavaScript
`hay.includes(needle)` for strings. -/
def listHasSub [DecidableEq α] (needle : List α) : List α → Bool
  | [] => needle.isEmpty
  | c :: cs => listStartsWith needle (c :: cs) || listHasSub needle cs

/-- Model of JavaScript `hay.includes(needle)` at the `String` level. -/
def strHasSub (needle hay : String) : Bool := listHasSub needle.data hay.data

theorem splitOnChar_ne_nil (sep : Char) (l : List Char) :
    splitOnChar sep l ≠ [] := by
  cases l with
  | nil => simp [splitOnChar]
  | cons c cs =>
    simp only [splitOnChar]
    cases h : splitOnChar sep cs with
    | nil => simp
    | cons p ps =>
      by_cases hc : c = sep <;> simp [hc]

theorem intercalate_cons₂ (sep : List α) (p q : List α) (r : List (List α)) :
    List.intercalate sep (p :: q :: r) = p ++ sep ++ List.intercalate sep (q :: r) := by
  simp [List.intercalate, List.intersperse]

theorem intercalate_single (sep : List α) (p : List α) :
    List.intercalate sep [p] = p := by
  simp [List.intercalate, List.intersperse]

/-- Joining the pieces of `splitOnChar` with the separator recovers the
original list. -/
theorem intercalate_splitOnChar (sep : Char) (l : List Char) :
    List.intercalate [sep] (splitOnChar sep l) = l := by
  induction l with
  | nil => simp [splitOnChar, intercalate_single]
  | cons c cs ih =>
    cases h : splitOnChar sep cs with
    | nil => exact absurd h (splitOnChar_ne_nil sep cs)
    | cons p ps =>
      rw [h] at ih
      by_cases hc : c = sep
      · subst hc
        have hs : splitOnChar c (c :: cs) = [] :: p :: ps := by
          simp [splitOnChar, h]
        rw [hs, intercalate_cons₂, ih]
        simp
      · have hs : splitOnChar sep (c :: cs) = (c :: p) :: ps := by
          simp [splitOnChar, h, hc]
        rw [hs]
        cases ps with
        | nil =>
          rw [intercalate_single] at ih ⊢
          rw [ih]
        | cons q qs =>
          rw [intercalate_cons₂] at ih ⊢
          simp [← ih]

/-- Splitting distributes over an explicit separator occurrence. -/
theorem splitOnChar_append_cons (sep : Char) (a b : List Char) :
    splitOnChar sep (a ++ sep :: b) = splitOnChar sep a ++ splitOnChar sep b := by
  induction a with
  | nil =>
    simp only [List.nil_append, splitOnChar]
    cases h : splitOnChar sep b with
    | nil => exact absurd h (splitOnChar_ne_nil sep b)
    | cons p ps => simp [splitOnChar]
  | cons c cs ih =>
    cases h : splitOnChar sep cs with
    | nil => exact absurd h (splitOnChar_ne_nil sep cs)
    | cons p ps =>
      have hmid : splitOnChar sep (cs ++ sep :: b) = p :: (ps ++ splitOnChar sep b) := by
        rw [ih, h]
        rfl
      by_cases hc : c = sep
      · subst hc
        show splitOnChar c (c :: (cs ++ c :: b)) = _
        simp [splitOnChar, hmid, h]
      · show splitOnChar sep (c :: (cs ++ sep :: b)) = _
        simp [splitOnChar, hmid, h, hc]

/-- A list free of the separator splits into the single piece itself. -/
theorem splitOnChar_of_not_mem {sep : Char} {l : List Char} (h : sep ∉ l) :
    splitOnChar sep l = [l] := by
  induction l with
  | nil => rfl
  | cons c cs ih =>
    simp only [List.mem_cons, not_or] at h
    simp only [splitOnChar, ih h.2]
    rw [if_neg (fun hc => h.1 hc.symm)]

/-- Splitting the separator-join of separator-free pieces recovers the
pieces. -/
theorem splitOnChar_intercalate (sep : Char) (ps : List (List Char))
    (hne : ps ≠ []) (h : ∀ p ∈ ps, sep ∉ p) :
    splitOnChar sep (List.intercalate [sep] ps) = ps := by
  induction ps with
  | nil => exact absurd rfl hne
  | cons p rest ih =>
    cases rest with
    | nil =>
      rw [intercalate_single]
      exact splitOnChar_of_not_mem (h p (by simp))
    | cons q qs =>
      rw [intercalate_cons₂]
      have : p ++ [sep] ++ List.intercalate [sep] (q :: qs)
          = p ++ sep :: List.intercalate [sep] (q :: qs) := by simp
      rw [this, splitOnChar_append_cons,
        splitOnChar_of_not_mem (h p (by simp)),
        ih (by simp) (fun x hx => h x (List.mem_cons_of_mem p hx))]
      rfl

/-- Characters admitted by the local-part class `[a-zA-Z0-9_'^&+\-]` of the
source regex (`Char.isAlpha`/`Char.isDigit` are exactly the ASCII ranges). -/
def isLocalChar (c : Char) : Bool :=
  c.isAlpha || c.isDigit || c = '_' || c = '\'' || c = '^' || c = '&' ||
  c = '+' || c = '-'

/-- Characters admitted by the domain-label class `[a-zA-Z0-9-]`. -/
def isDomainChar (c : Char) : Bool :=
  c.isAlpha || c.isDigit || c = '-'

/-- Characters admitted by the final-label class `[a-zA-Z]`. -/
def isTldChar (c : Char) : Bool :=
  c.isAlpha

/-- The anchored sub-pattern `(?:[...])+(?:\.(?:[...])+)*` for the local
part: every dot-separated piece is non-empty and drawn from the class. -/
def localPartOk (l : List Char) : Bool :=
  (splitOnChar '.' l).all fun p => !p.isEmpty && p.all isLocalChar

/-- Checks the reversed label list of the domain: a final label of at least
two letters preceded by at least one well-formed label. -/
def domainRevOk : List (List Char) → Bool
  | [] => false
  | tld :: labels =>
    !labels.isEmpty &&
    labels.all (fun p => !p.isEmpty && p.all isDomainChar) &&
    decide (2 ≤ tld.length) && tld.all isTldChar

/-- The anchored sub-pattern `(?:[a-zA-Z0-9-]+\.)+[a-zA-Z]{2,}` for the
domain: at least one label before a final label of at least two letters. -/
def domainPartOk (d : List Char) : Bool :=
  domainRevOk (splitOnChar '.' d).reverse

/-- Accepts exactly the splits at `@` with two pieces — i.e. one `@` — whose
sides are a well-formed local part and domain. -/
def emailSplitOk : List (List Char) → Bool
  | [loc, dom] => localPartOk loc && domainPartOk dom
  | _ => false

/-- The full anchored regex of the source: exactly one `@`, a well-formed
local part before it and a well-formed domain after it. -/
def emailMatch (l : List Char) : Bool :=
  emailSplitOk (splitOnChar '@' l)

/-- Model of `isValidEmail` from `app/page.tsx` and the API route: the
regex is applied to `email.trim()`. -/
def isValidEmail (email : String) : Bool :=
  emailMatch (jsTrim email.data)

/-- Claim-side description of a local-part run: non-empty, characters from
`[A-Za-z0-9_'^&+-]`. -/
def LocalPiece (p : List Char) : Prop :=
  p ≠ [] ∧ ∀ c ∈ p, isLocalChar c = true

/-- Claim-side description of a non-final domain label. -/
def DomainLabel (p : List Char) : Prop :=
  p ≠ [] ∧ ∀ c ∈ p, isDomainChar c = true

/-- Claim-side description of the final label: at least two letters. -/
def TldLabel (p : List Char) : Prop :=
  2 ≤ p.length ∧ ∀ c ∈ p, isTldChar c = true

/-- Claim-side statement "the string matches `local@domain.tld`": it is
literally a dot-join of local runs, an `@`, and a dot-join of labels ending
in a final label of at least two letters. -/
def EmailShape (l : List Char) : Prop :=
  ∃ (locs labs : List (List Char)) (tld : List Char),
    locs ≠ [] ∧ (∀ p ∈ locs, LocalPiece p) ∧
    labs ≠ [] ∧ (∀ p ∈ labs, DomainLabel p) ∧ TldLabel tld ∧
    l = List.intercalate ['.'] locs ++ '@' :: List.intercalate ['.'] (labs ++ [tld])

theorem localChar_ne_dot {c : Char} (h : isLocalChar c = true) : c ≠ '.' := by
  rintro rfl
  exact absurd h (by decide)

theorem localChar_ne_at {c : Char} (h : isLocalChar c = true) : c ≠ '@' := by
  rintro rfl
  exact absurd h (by decide)

theorem domainChar_ne_dot {c : Char} (h : isDomainChar c = true) : c ≠ '.' := by
  rintro rfl
  exact absurd h (by decide)

theorem domainChar_ne_at {c : Char} (h : isDomainChar c = true) : c ≠ '@' := by
  rintro rfl
  exact absurd h (by decide)

theorem tldChar_ne_dot {c : Char} (h : isTldChar c = true) : c ≠ '.' := by
  rintro rfl
  exact absurd h (by decide)

theorem tldChar_ne_at {c : Char} (h : isTldChar c = true) : c ≠ '@' := by
  rintro rfl
  exact absurd h (by decide)

/-- Every member of a dot-join is the separator or comes from a piece. -/
theorem mem_intercalate_single {x s : α} {ps : List (List α)}
    (h : x ∈ List.intercalate [s] ps) : x = s ∨ ∃ p ∈ ps, x ∈ p := by
  induction ps with
  | nil => simp [List.intercalate, List.intersperse] at h
  | cons p rest ih =>
    cases rest with
    | nil =>
      rw [intercalate_single] at h
      exact Or.inr ⟨p, by simp, h⟩
    | cons q qs =>
      rw [intercalate_cons₂] at h
      simp only [List.mem_append, List.mem_singleton] at h
      rcases h with (h | h) | h
      · exact Or.inr ⟨p, by simp, h⟩
      · exact Or.inl h
      · rcases ih h with h' | ⟨r, hr, hx⟩
        · exact Or.inl h'
        · exact Or.inr ⟨r, List.mem_cons_of_mem _ hr, hx⟩

theorem ne_nil_of_isEmpty_eq_false {l : List α} (h : l.isEmpty = false) :
    l ≠ [] := by
  cases l with
  | nil => simp at h
  | cons a as => simp

theorem isEmpty_eq_false_of_ne_nil {l : List α} (h : l ≠ []) :
    l.isEmpty = false := by
  cases l with
  | nil => exact absurd rfl h
  | cons a as => rfl

/-- The source regex accepts exactly the character lists of the shape the
specification describes. -/
theorem emailMatch_iff (l : List Char) : emailMatch l = true ↔ EmailShape l := by
  constructor
  · intro h
    unfold emailMatch at h
    cases hs : splitOnChar '@' l with
    | nil => exact absurd hs (splitOnChar_ne_nil '@' l)
    | cons loc rest =>
      rw [hs] at h
      cases rest with
      | nil => simp [emailSplitOk] at h
      | cons dom rest2 =>
        cases rest2 with
        | cons x xs => simp [emailSplitOk] at h
        | nil =>
          simp only [emailSplitOk, Bool.and_eq_true] at h
          obtain ⟨hloc, hdom⟩ := h
          have hl : l = loc ++ '@' :: dom := by
            have hi := intercalate_splitOnChar '@' l
            rw [hs, intercalate_cons₂, intercalate_single] at hi
            simpa using hi.symm
          have hlocs := intercalate_splitOnChar '.' loc
          have hlocp : ∀ p ∈ splitOnChar '.' loc, LocalPiece p := by
            intro p hp
            have hx := (List.all_eq_true.mp hloc) p hp
            simp only [Bool.and_eq_true, Bool.not_eq_true'] at hx
            exact ⟨ne_nil_of_isEmpty_eq_false hx.1, List.all_eq_true.mp hx.2⟩
          unfold domainPartOk at hdom
          cases hrev : (splitOnChar '.' dom).reverse with
          | nil => rw [hrev] at hdom; simp [domainRevOk] at hdom
          | cons tld labels =>
            rw [hrev] at hdom
            simp only [domainRevOk, Bool.and_eq_true, Bool.not_eq_true',
              decide_eq_true_eq] at hdom
            obtain ⟨⟨⟨hlabne, hlaball⟩, htldlen⟩, htldall⟩ := hdom
            have hds : splitOnChar '.' dom = labels.reverse ++ [tld] := by
              have hq := congrArg List.reverse hrev
              simpa using hq
            refine ⟨splitOnChar '.' loc, labels.reverse, tld,
              splitOnChar_ne_nil _ _, hlocp, ?_, ?_,
              ⟨htldlen, List.all_eq_true.mp htldall⟩, ?_⟩
            · simpa using ne_nil_of_isEmpty_eq_false hlabne
            · intro p hp
              have hp' : p ∈ labels := List.mem_reverse.mp hp
              have hx := (List.all_eq_true.mp hlaball) p hp'
              simp only [Bool.and_eq_true, Bool.not_eq_true'] at hx
              exact ⟨ne_nil_of_isEmpty_eq_false hx.1, List.all_eq_true.mp hx.2⟩
            · rw [← hds, intercalate_splitOnChar, intercalate_splitOnChar]
              exact hl
  · rintro ⟨locs, labs, tld, hlocs_ne, hlocs, hlabs_ne, hlabs,
      ⟨htldlen, htldall⟩, rfl⟩
    have hatA : '@' ∉ List.intercalate ['.'] locs := by
      intro hx
      rcases mem_intercalate_single hx with h' | ⟨p, hp, hxp⟩
      · exact absurd h' (by decide)
      · exact localChar_ne_at ((hlocs p hp).2 _ hxp) rfl
    have hdotfreeL : ∀ p ∈ locs, '.' ∉ p := fun p hp hx =>
      localChar_ne_dot ((hlocs p hp).2 _ hx) rfl
    have hdotfreeD : ∀ p ∈ labs ++ [tld], '.' ∉ p := by
      intro p hp hx
      rcases List.mem_append.mp hp with hp' | hp'
      · exact domainChar_ne_dot ((hlabs p hp').2 _ hx) rfl
      · have hpt : p = tld := by simpa using hp'
        subst hpt
        exact tldChar_ne_dot (htldall _ hx) rfl
    have hatB : '@' ∉ List.intercalate ['.'] (labs ++ [tld]) := by
      intro hx
      rcases mem_intercalate_single hx with h' | ⟨p, hp, hxp⟩
      · exact absurd h' (by decide)
      · rcases List.mem_append.mp hp with hp' | hp'
        · exact domainChar_ne_at ((hlabs p hp').2 _ hxp) rfl
        · have hpt : p = tld := by simpa using hp'
          subst hpt
          exact tldChar_ne_at (htldall _ hxp) rfl
    have hsplit : splitOnChar '@'
        (List.intercalate ['.'] locs ++ '@' :: List.intercalate ['.'] (labs ++ [tld]))
        = [List.intercalate ['.'] locs, List.intercalate ['.'] (labs ++ [tld])] := by
      rw [splitOnChar_append_cons, splitOnChar_of_not_mem hatA,
        splitOnChar_of_not_mem hatB]
      rfl
    unfold emailMatch
    rw [hsplit]
    simp only [emailSplitOk, Bool.and_eq_true]
    constructor
    · unfold localPartOk
      rw [splitOnChar_intercalate '.' locs hlocs_ne hdotfreeL, List.all_eq_true]
      intro p hp
      obtain ⟨hne, hall⟩ := hlocs p hp
      simp [isEmpty_eq_false_of_ne_nil hne, List.all_eq_true.mpr hall]
    · unfold domainPartOk
      rw [splitOnChar_intercalate '.' (labs ++ [tld]) (by simp) hdotfreeD]
      have hrev : (labs ++ [tld]).reverse = tld :: labs.reverse := by simp
      rw [hrev]
      simp only [domainRevOk, Bool.and_eq_true, Bool.not_eq_true',
        decide_eq_true_eq]
      refine ⟨⟨⟨?_, ?_⟩, htldlen⟩, List.all_eq_true.mpr htldall⟩
      · exact isEmpty_eq_false_of_ne_nil (by simpa using hlabs_ne)
      · rw [List.all_eq_true]
        intro p hp
        obtain ⟨hne, hall⟩ := hlabs p (List.mem_reverse.mp hp)
        simp [isEmpty_eq_false_of_ne_nil hne, List.all_eq_true.mpr hall]

theorem dropWhile_idem (p : α → Bool) (l : List α) :
    (l.dropWhile p).dropWhile p = l.dropWhile p := by
  induction l with
  | nil => rfl
  | cons a as ih =>
    by_cases h : p a
    · rw [List.dropWhile_cons_of_pos h, ih]
    · rw [List.dropWhile_cons_of_neg h, List.dropWhile_cons_of_neg h]

theorem head_fails_of_dropWhile_eq {p : α → Bool} {a : α} {w : List α}
    (h : (a :: w).dropWhile p = a :: w) : p a = false := by
  cases hpa : p a with
  | false => rfl
  | true =>
    exfalso
    rw [List.dropWhile_cons_of_pos hpa] at h
    have hlen := congrArg List.length h
    have hle := (List.dropWhile_suffix (l := w) p).length_le
    rw [hlen] at hle
    simp at hle

/-- JavaScript `trim` is idempotent. -/
theorem jsTrim_idem (l : List Char) : jsTrim (jsTrim l) = jsTrim l := by
  set u := l.dropWhile isJsWhitespace with hu_def
  have huu : u.dropWhile isJsWhitespace = u := dropWhile_idem isJsWhitespace l
  obtain ⟨t, ht⟩ := List.dropWhile_suffix (l := u.reverse) isJsWhitespace
  have hu : u = (u.reverse.dropWhile isJsWhitespace).reverse ++ t.reverse := by
    have hq := congrArg List.reverse ht
    simpa using hq.symm
  have hv : jsTrim l = (u.reverse.dropWhile isJsWhitespace).reverse := rfl
  have h1 : (jsTrim l).dropWhile isJsWhitespace = jsTrim l := by
    rw [hv]
    cases hc : (u.reverse.dropWhile isJsWhitespace).reverse with
    | nil => rfl
    | cons a v2 =>
      have hux : u = a :: (v2 ++ t.reverse) := by
        rw [hu, hc]
        simp
      have hfail : isJsWhitespace a = false := by
        apply head_fails_of_dropWhile_eq (w := v2 ++ t.reverse)
        rw [← hux, huu, hux]
      rw [List.dropWhile_cons_of_neg (by simp [hfail])]
  show (((jsTrim l).dropWhile isJsWhitespace).reverse.dropWhile
      isJsWhitespace).reverse = jsTrim l
  rw [h1, hv, List.reverse_reverse, dropWhile_idem]

/-- The email predicate is invariant under a prior trim. -/
theorem isValidEmail_strTrim (s : String) :
    isValidEmail (strTrim s) = isValidEmail s := by
  show emailMatch (jsTrim (jsTrim s.data)) = emailMatch (jsTrim s.data)
  rw [jsTrim_idem]

/-- A `FormDataEntryValue | null` (string, file, `null`), extended with the
array case that `parseCommaOrArray` is written to handle. -/
inductive FormVal where
  | vNull
  | vStr (s : String)
  | vFile (name : String) (content : List Nat) (ftype : String)
  | vList (vs : List FormVal)

/-- JavaScript truthiness test (`!value`) on a form value: `null` and the
empty string are falsy; files and arrays are truthy. -/
def jsFalsy : FormVal → Bool
  | .vNull => true
  | .vStr s => s == ""
  | _ => false

/-- Model of `typeof v === "string" ? v : ""`. -/
def strOrEmpty : FormVal → String
  | .vStr s => s
  | _ => ""

mutual

/-- Model of JavaScript `String(v)` on a form value. -/
def jsStringOf : FormVal → String
  | .vNull => "null"
  | .vStr s => s
  | .vFile _ _ _ => "[object File]"
  | .vList vs => String.intercalate "," (jsStringListOf vs)

/-- Stringification of each element of a form-value list. -/
def jsStringListOf : List FormVal → List String
  | [] => []
  | v :: vs => jsStringOf v :: jsStringListOf vs

end

/-- Model of `parseCommaOrArray` from the API route: falsy values give `[]`;
arrays are mapped to strings, comma-split, trimmed and filtered; other
values are stringified (non-strings to `""`), comma-split, trimmed and
filtered. -/
def parseCommaOrArray (value : FormVal) : List String :=
  if jsFalsy value then []
  else
    match value with
    | .vList vs =>
      (((vs.map strOrEmpty).flatMap fun v => splitOnStr ',' v).map strTrim).filter
        fun v => v != ""
    | v =>
      ((splitOnStr ',' (strOrEmpty v)).map strTrim).filter fun v => v != ""

/-- Model of `FormData.prototype.get`: first entry with the name, else
`null`. -/
def formGet (form : List (String × FormVal)) (name : String) : Option FormVal :=
  (form.find? fun kv => kv.1 == name).map fun kv => kv.2

/-- Model of `FormData.prototype.getAll`. -/
def formGetAll (form : List (String × FormVal)) (name : String) : List FormVal :=
  (form.filter fun kv => kv.1 == name).map fun kv => kv.2

/-- Model of `String(form.get(name) || "")`. -/
def getFormString (form : List (String × FormVal)) (name : String) : String :=
  match formGet form name with
  | none => ""
  | some v => if jsFalsy v then "" else jsStringOf v

/-- The `ParsedEmailFields` record of the API route (`from` is rendered
`fromAddr` and `to` `toAddrs` because `from` is reserved in Lean). -/
structure ParsedEmailFields where
  fromAddr : String
  toAddrs : List String
  subject : String
  bodyHtml : String
deriving DecidableEq

/-- An attachment handed to the mail transport: filename, bytes, optional
content type. -/
structure Attachment where
  filename : String
  content : List Nat
  contentType : Option String
deriving DecidableEq

/-- Result of `parseRequest`: fields plus decoded attachments. -/
structure ParsedRequest where
  fields : ParsedEmailFields
  attachments : List Attachment
deriving DecidableEq

/-- The standard base64 alphabet. -/
def base64Chars : List Char :=
  "ABCDEFGHIJKLMNOPQRSTUVWXYZabcdefghijklmnopqrstuvwxyz0123456789+/".data

/-- Character for a 6-bit value. -/
def b64Char (n : Nat) : Char := base64Chars.getD n 'A'

/-- Index of a character in the base64 alphabet (`none` for `=` and any
foreign character). -/
def b64Index (c : Char) : Option Nat := base64Chars.findIdx? fun d => d == c

/-- Standard base64 encoding of a byte list (what a JSON client uploads). -/
def base64EncodeChars : List Nat → List Char
  | b1 :: b2 :: b3 :: rest =>
    b64Char (b1 / 4) :: b64Char (b1 % 4 * 16 + b2 / 16) ::
    b64Char (b2 % 16 * 4 + b3 / 64) :: b64Char (b3 % 64) ::
    base64EncodeChars rest
  | [b1, b2] =>
    [b64Char (b1 / 4), b64Char (b1 % 4 * 16 + b2 / 16), b64Char (b2 % 16 * 4), '=']
  | [b1] => [b64Char (b1 / 4), b64Char (b1 % 4 * 16), '=', '=']
  | [] => []

/-- Standard base64 encoding, as a string. -/
def base64Encode (bs : List Nat) : String := ⟨base64EncodeChars bs⟩

/-- Base64 decoding on characters, four at a time, honouring `=` padding —
the behaviour of Node's `Buffer.from(s, "base64")` on canonical padded
input. -/
def b64DecodeChars : List Char → List Nat
  | c1 :: c2 :: c3 :: c4 :: rest =>
    match b64Index c1, b64Index c2 with
    | some n1, some n2 =>
      let b1 := n1 * 4 + n2 / 16
      match b64Index c3 with
      | none => [b1]
      | some n3 =>
        let b2 := n2 % 16 * 16 + n3 / 4
        match b64Index c4 with
        | none => [b1, b2]
        | some n4 => b1 :: b2 :: (n3 % 4 * 64 + n4) :: b64DecodeChars rest
    | _, _ => []
  | _ => []

/-- Model of `Buffer.from(s, "base64")`. -/
def base64Decode (s : String) : List Nat := b64DecodeChars s.data

/-- An attachment as it appears in a JSON body: content still base64. -/
structure JsonAttachment where
  filename : String
  content : String
  contentType : Option String
deriving DecidableEq

/-- A decoded JSON request body (`Partial<ParsedEmailFields>` plus
attachments); absent properties are `none`. -/
structure JsonBody where
  fromAddr : Option String
  toAddrs : Option (List String)
  subject : Option String
  bodyHtml : Option String
  attachments : Option (List JsonAttachment)
deriving DecidableEq

/-- An incoming HTTP request: the content-type header, the form data used
when the header says multipart, and the result of `req.json()` used
otherwise (`none` models a body that fails to parse as JSON). -/
structure Request where
  contentType : Option String
  form : List (String × FormVal)
  jsonParsed : Option JsonBody

/-- Model of the content-type sniff
`(req.headers.get("content-type") || "").toLowerCase().includes("multipart/form-data")`. -/
def isMultipartReq (r : Request) : Bool :=
  strHasSub "multipart/form-data" (strToLower (r.contentType.getD ""))

/-- The multipart branch of `parseRequest`. -/
def parseMultipart (form : List (String × FormVal)) : ParsedRequest :=
  { fields := {
      fromAddr := getFormString form "from"
      toAddrs := parseCommaOrArray ((formGet form "to").getD .vNull)
      subject := getFormString form "subject"
      bodyHtml := getFormString form "bodyHtml" }
    attachments := (formGetAll form "attachments").filterMap fun v =>
      match v with
      | .vFile name bytes ftype =>
        some { filename := name, content := bytes
               contentType := if ftype == "" then none else some ftype }
      | _ => none }

/-- The JSON branch of `parseRequest`: `req.json().catch(() => ({}))`
followed by `||` defaults; attachments are base64-decoded. -/
def parseJson (j : Option JsonBody) : ParsedRequest :=
  let body := j.getD ⟨none, none, none, none, none⟩
  { fields := {
      fromAddr := body.fromAddr.getD ""
      toAddrs := body.toAddrs.getD []
      subject := body.subject.getD ""
      bodyHtml := body.bodyHtml.getD "" }
    attachments := (body.attachments.getD []).map fun a =>
      { filename := a.filename, content := base64Decode a.content
        contentType := a.contentType } }

/-- Model of `parseRequest` from the API route. -/
def parseRequest (r : Request) : ParsedRequest :=
  if isMultipartReq r then parseMultipart r.form else parseJson r.jsonParsed

/-- The server process environment: the five SMTP variables, `none` when
unset. -/
structure Env where
  smtpHost : Option String
  smtpPort : Option String
  smtpUser : Option String
  smtpPass : Option String
  smtpSecure : Option String
deriving DecidableEq

/-- The port value handed to the transport: the literal default `587`, or
the still-symbolic result of `Number(...)` on a set, non-empty variable. -/
inductive PortSpec where
  | lit (n : Nat)
  | parsed (s : String)
deriving DecidableEq

/-- Model of `Number(process.env.SMTP_PORT || 587)`: unset or empty gives
the literal `587`; other strings are kept symbolic. -/
def portOf (v : Option String) : PortSpec :=
  match v with
  | none => .lit 587
  | some s => if s == "" then .lit 587 else .parsed s

/-- Model of `v || d` for an environment variable: unset or empty gives the
default. -/
def jsOrElse (v : Option String) (d : String) : String :=
  match v with
  | none => d
  | some s => if s == "" then d else s

/-- Model of `String(process.env.SMTP_SECURE || "false").toLowerCase() === "true"`. -/
def secureOf (v : Option String) : Bool :=
  strToLower (jsOrElse v "false") == "true"

/-- Model of `!x` on an optional environment string: unset or empty. -/
def jsFalsyOpt : Option String → Bool
  | none => true
  | some s => s == ""

/-- The options object handed to `nodemailer.createTransport`. -/
structure SmtpConfig where
  host : String
  port : PortSpec
  secure : Bool
  user : String
  pass : String
deriving DecidableEq

/-- The message object handed to `transporter.sendMail`. -/
structure MailMessage where
  fromAddr : String
  toJoined : String
  subject : String
  html : String
  attachments : List Attachment
deriving DecidableEq

/-- Outcome of the awaited `sendMail` call: a resolved info object carrying
`messageId`, or a thrown error carrying a message. -/
inductive SendOutcome where
  | success (messageId : String)
  | failure (errMsg : String)
deriving DecidableEq

/-- A JSON response body: `{success: true, messageId}` or `{error: msg}`. -/
inductive RespBody where
  | ok (messageId : String)
  | err (msg : String)
deriving DecidableEq

/-- Observable result of one `POST` invocation: HTTP status, JSON body, the
transport configurations constructed, and the messages handed to
`sendMail`. -/
structure PostResult where
  status : Nat
  body : RespBody
  transports : List SmtpConfig
  sent : List MailMessage
deriving DecidableEq

/-- The body of `POST` after `parseRequest`: validation of `from` and `to`,
the environment checks, transport construction and the send call, with the
surrounding `try/catch` turning a `sendMail` failure into a 500 whose body
carries the error's message. -/
def dispatch (p : ParsedRequest) (env : Env)
    (transport : MailMessage → SendOutcome) : PostResult :=
  let f := p.fields
  if f.fromAddr == "" || !isValidEmail f.fromAddr then
    { status := 400, body := .err "Valid 'from' email is required"
      transports := [], sent := [] }
  else if f.toAddrs.length == 0 || !f.toAddrs.all isValidEmail then
    { status := 400, body := .err "Provide at least one valid 'to' email"
      transports := [], sent := [] }
  else if jsFalsyOpt env.smtpHost || jsFalsyOpt env.smtpUser ||
      jsFalsyOpt env.smtpPass then
    { status := 500, body := .err "SMTP credentials are not configured on the server"
      transports := [], sent := [] }
  else
    let cfg : SmtpConfig := {
      host := env.smtpHost.getD "", port := portOf env.smtpPort
      secure := secureOf env.smtpSecure
      user := env.smtpUser.getD "", pass := env.smtpPass.getD "" }
    let msg : MailMessage := {
      fromAddr := f.fromAddr
      toJoined := String.intercalate "," f.toAddrs
      subject := f.subject
      html := f.bodyHtml
      attachments := p.attachments }
    match transport msg with
    | .success mid =>
      { status := 200, body := .ok mid, transports := [cfg], sent := [msg] }
    | .failure m =>
      { status := 500, body := .err m, transports := [cfg], sent := [msg] }

/-- Model of the exported `POST` handler: parse, then dispatch. -/
def POST (r : Request) (env : Env)
    (transport : MailMessage → SendOutcome) : PostResult :=
  dispatch (parseRequest r) env transport

/-- The Composer's form state: sender, committed recipients, subject. -/
structure ComposerState where
  fromAddr : String
  toAddrs : List String
  subject : String
deriving DecidableEq

/-- Model of `canSubmit` from `app/page.tsx`. -/
def canSubmit (st : ComposerState) : Bool :=
  isValidEmail st.fromAddr && decide (0 < st.toAddrs.length) &&
  st.toAddrs.all isValidEmail && decide (0 < (strTrim st.subject).length)

/-- A file selected in the browser file input. -/
structure BrowserFile where
  name : String
  content : List Nat
  ftype : String
deriving DecidableEq

/-- The multipart body built by `onSubmit`. -/
def buildForm (st : ComposerState) (bodyHtml : String)
    (files : List BrowserFile) : List (String × FormVal) :=
  [("from", FormVal.vStr st.fromAddr),
   ("to", FormVal.vStr (String.intercalate "," st.toAddrs)),
   ("subject", FormVal.vStr st.subject),
   ("bodyHtml", FormVal.vStr bodyHtml)] ++
  files.map fun f => ("attachments", FormVal.vFile f.name f.content f.ftype)

/-- Model of `onSubmit`: the guard `if (!canSubmit) return;` means no fetch
is issued unless `canSubmit` holds; otherwise one POST with the built form
body is issued. -/
def onSubmit (st : ComposerState) (bodyHtml : String)
    (files : List BrowserFile) : Option (List (String × FormVal)) :=
  if canSubmit st then some (buildForm st bodyHtml files) else none

/-- The `pieces` computation of the tag input's `add`: split the raw input
on commas, trim, drop empty strings. -/
def tagPieces (input : String) : List String :=
  ((splitOnStr ',' input).map strTrim).filter fun v => v != ""

namespace TagInput

/-- Model of the tag input's `add` commit operation: if there are no
pieces, the committed list is unchanged (no `onChange` call); otherwise
each piece that passes the email predicate and is not yet present is
appended in order. -/
def add (values : List String) (input : String) : List String :=
  let pieces := tagPieces input
  if pieces.isEmpty then values
  else pieces.foldl (fun next p =>
    if isValidEmail p && !next.contains p then next ++ [p] else next) values

end TagInput

/-- Claim-side description of the entries a batch of pieces adds: those
that pass the email predicate and are not already present, checked against
the committed list as it grows. -/
def newEntries (committed : List String) : List String → List String
  | [] => []
  | p :: ps =>
    if isValidEmail p && !committed.contains p then
      p :: newEntries (committed ++ [p]) ps
    else newEntries committed ps

theorem strLength_pos_iff (s : String) : 0 < s.length ↔ s ≠ "" := by
  rw [show s.length = s.data.length from rfl, List.length_pos]
  constructor
  · intro h hs
    rw [hs] at h
    exact h rfl
  · intro h hd
    apply h
    apply String.ext
    rw [hd]

/-- The committing fold of `TagInput.add` appends exactly the batch's new
valid entries. -/
theorem foldl_add_eq_append (ps : List String) (next : List String) :
    ps.foldl (fun next p =>
      if isValidEmail p && !next.contains p then next ++ [p] else next) next
    = next ++ newEntries next ps := by
  induction ps generalizing next with
  | nil => simp [newEntries]
  | cons p ps ih =>
    simp only [List.foldl_cons, newEntries]
    by_cases h : isValidEmail p && !next.contains p
    · rw [if_pos h, if_pos h, ih]
      simp
    · rw [if_neg h, if_neg h, ih]

/-- C10: for every string `s`, `isValidEmail s = isValidEmail (trim s)` —
the email predicate is invariant under leading and trailing whitespace, so
a valid address surrounded by whitespace is accepted. -/
theorem claim_C10 :
    (∀ s : String, isValidEmail s = isValidEmail (strTrim s)) ∧
    isValidEmail "  a@b.com " = true := by
  refine ⟨fun s => (isValidEmail_strTrim s).symm, by decide⟩

/-- C1, counterexample: `isValidEmail` accepts `" a@b.com"`, but that
string does not itself match the `local@domain.tld` shape, refuting the
claimed "accepts iff matches" equivalence over all strings. -/
theorem claim_C1_counterexample :
    isValidEmail " a@b.com" = true ∧ ¬ EmailShape (" a@b.com".data) := by
  refine ⟨by decide, fun h => ?_⟩
  have h2 : emailMatch (" a@b.com".data) = true := (emailMatch_iff _).mpr h
  exact absurd h2 (by decide)

/-- C1, amended: for every string `s`, `isValidEmail` accepts `s` iff the
trimmed `s` matches `local@domain.tld` with local part one or more
dot-separated runs over `[A-Za-z0-9_'^&+-]` and domain one or more
dot-separated labels followed by a final label of at least 2 letters; in
particular it accepts `"a.b+c@sub.example.co"` and rejects `"a@b"` and
`"a@@b.com"`. -/
theorem claim_C1 :
    (∀ s : String, isValidEmail s = true ↔ EmailShape (jsTrim s.data)) ∧
    isValidEmail "a.b+c@sub.example.co" = true ∧
    isValidEmail "a@b" = false ∧
    isValidEmail "a@@b.com" = false :=
  ⟨fun s => emailMatch_iff (jsTrim s.data), by decide, by decide, by decide⟩

/-- C7: the tag input's commit splits the raw input on commas, trims each
piece, and appends exactly the pieces that pass the email predicate and
are not already present (checked against the list as it grows); submitting
`"x@y.com, bad, z@y.com"` to an empty list yields
`["x@y.com","z@y.com"]`. -/
theorem claim_C7 :
    (∀ (values : List String) (input : String),
      TagInput.add values input = values ++ newEntries values (tagPieces input)) ∧
    TagInput.add [] "x@y.com, bad, z@y.com" = ["x@y.com", "z@y.com"] := by
  constructor
  · intro values input
    unfold TagInput.add
    by_cases h : (tagPieces input).isEmpty = true
    · rw [if_pos h]
      cases htp : tagPieces input with
      | nil => simp [newEntries]
      | cons a as =>
        rw [htp] at h
        simp at h
    · rw [if_neg h]
      exact foldl_add_eq_append _ _
  · decide

/-- C6: for every Composer state, `canSubmit` holds iff `from` passes the
email predicate, `to` is non-empty with every entry passing, and the
subject is non-blank after trimming; and when `canSubmit` fails, `onSubmit`
issues no network request. -/
theorem claim_C6 :
    ∀ st : ComposerState,
      (canSubmit st = true ↔
        isValidEmail st.fromAddr = true ∧ st.toAddrs ≠ [] ∧
        (∀ e ∈ st.toAddrs, isValidEmail e = true) ∧ strTrim st.subject ≠ "") ∧
      (canSubmit st = false → ∀ (bodyHtml : String) (files : List BrowserFile),
        onSubmit st bodyHtml files = none) := by
  intro st
  constructor
  · unfold canSubmit
    simp only [Bool.and_eq_true, decide_eq_true_eq, List.all_eq_true]
    constructor
    · rintro ⟨⟨⟨h1, h2⟩, h3⟩, h4⟩
      exact ⟨h1, List.ne_nil_of_length_pos h2, h3,
        (strLength_pos_iff _).mp h4⟩
    · rintro ⟨h1, h2, h3, h4⟩
      exact ⟨⟨⟨h1, List.length_pos.mpr h2⟩, h3⟩,
        (strLength_pos_iff _).mpr h4⟩
  · intro h bodyHtml files
    unfold onSubmit
    rw [if_neg]
    rw [h]
    exact Bool.false_ne_true

/-- C6 witness: a state with an empty recipient list cannot submit and
issues no request. -/
theorem claim_C6_witness :
    (canSubmit ⟨"a@b.com", [], "hi"⟩ = true ↔
      isValidEmail "a@b.com" = true ∧ ([] : List String) ≠ [] ∧
      (∀ e ∈ ([] : List String), isValidEmail e = true) ∧
      strTrim "hi" ≠ "") ∧
    onSubmit ⟨"a@b.com", [], "hi"⟩ "" [] = none :=
  ⟨(claim_C6 ⟨"a@b.com", [], "hi"⟩).1,
   (claim_C6 ⟨"a@b.com", [], "hi"⟩).2 (by decide) "" []⟩

/-- C8: the Dispatcher's SMTP configuration defaults the port to 587 when
`SMTP_PORT` is unset and `secure` to false when `SMTP_SECURE` is unset, and
treats `SMTP_SECURE` as true exactly when its value lowercases to
`"true"`. -/
theorem claim_C8 :
    ∀ env : Env,
      (env.smtpPort = none → portOf env.smtpPort = .lit 587) ∧
      (env.smtpSecure = none → secureOf env.smtpSecure = false) ∧
      (∀ s, env.smtpSecure = some s →
        (secureOf env.smtpSecure = true ↔ strToLower s = "true")) := by
  intro env
  refine ⟨fun h => by rw [h]; rfl, fun h => by rw [h]; rfl, fun s hs => ?_⟩
  rw [hs]
  simp only [secureOf, jsOrElse]
  by_cases he : (s == "") = true
  · have hs0 : s = "" := by simpa using he
    subst hs0
    decide
  · rw [if_neg he]
    simp

/-- C8 witness: defaults at an environment with port and secure unset, and
the lowercase comparison at `SMTP_SECURE="TRUE"`. -/
theorem claim_C8_witness :
    portOf (Env.mk (some "h") none (some "u") (some "p") none).smtpPort
      = PortSpec.lit 587 ∧
    secureOf (Env.mk (some "h") none (some "u") (some "p") none).smtpSecure
      = false ∧
    (secureOf (Env.mk (some "h") none (some "u") (some "p")
        (some "TRUE")).smtpSecure = true ↔ strToLower "TRUE" = "true") :=
  ⟨(claim_C8 ⟨some "h", none, some "u", some "p", none⟩).1 rfl,
   (claim_C8 ⟨some "h", none, some "u", some "p", none⟩).2.1 rfl,
   (claim_C8 ⟨some "h", none, some "u", some "p", some "TRUE"⟩).2.2 "TRUE" rfl⟩

/-- Claim-side normalization of a `to` value: comma-split every entry, trim
each piece, drop empty pieces. -/
def normalizeToList (ss : List String) : List String :=
  ((ss.flatMap fun v => splitOnStr ',' v).map strTrim).filter fun v => v != ""

/-- List-shaped input to `parseCommaOrArray` is normalized. -/
theorem parseCommaOrArray_vList (ss : List String) :
    parseCommaOrArray (.vList (ss.map .vStr)) = normalizeToList ss := by
  unfold parseCommaOrArray
  rw [if_neg (by simp [jsFalsy])]
  simp only [normalizeToList, List.map_map]
  rw [show (strOrEmpty ∘ FormVal.vStr) = id from funext fun v => rfl, List.map_id]

/-- String-shaped input to `parseCommaOrArray` is normalized the same
way. -/
theorem parseCommaOrArray_vStr (s : String) :
    parseCommaOrArray (.vStr s) = normalizeToList [s] := by
  unfold parseCommaOrArray
  by_cases h : jsFalsy (.vStr s) = true
  · rw [if_pos h]
    have hs0 : s = "" := by simpa [jsFalsy] using h
    subst hs0
    decide
  · rw [if_neg h]
    simp [normalizeToList, strOrEmpty]

/-- C2, counterexample: the same `to` value (the list `[" a@x.com"]`)
arriving in a JSON body is handed on unnormalized — not comma-split,
trimmed or filtered — so normalization is not independent of the body
encoding. -/
theorem claim_C2_counterexample :
    (parseRequest ⟨some "application/json", [],
        some ⟨some "a@b.com", some [" a@x.com"], some "s", none, none⟩⟩).fields.toAddrs
      = [" a@x.com"] ∧
    normalizeToList [" a@x.com"] = ["a@x.com"] ∧
    ([" a@x.com"] : List String) ≠ ["a@x.com"] :=
  ⟨by decide, by decide, by decide⟩

/-- C2, amended: `parseCommaOrArray` — used by the multipart path —
comma-splits, trims and drops empty entries identically for string and
list values, and in particular maps `"a@x.com,b@x.com"` and
`["a@x.com","b@x.com"]` to the same two-element list; the JSON path
instead passes the decoded `to` list through unchanged (defaulting to
`[]`). -/
theorem claim_C2 :
    (∀ ss : List String,
      parseCommaOrArray (.vList (ss.map .vStr)) = normalizeToList ss) ∧
    (∀ s : String, parseCommaOrArray (.vStr s) = normalizeToList [s]) ∧
    parseCommaOrArray (.vStr "a@x.com,b@x.com")
      = parseCommaOrArray (.vList [.vStr "a@x.com", .vStr "b@x.com"]) ∧
    parseCommaOrArray (.vStr "a@x.com,b@x.com") = ["a@x.com", "b@x.com"] ∧
    (∀ r : Request, isMultipartReq r = true →
      (parseRequest r).fields.toAddrs
        = parseCommaOrArray ((formGet r.form "to").getD .vNull)) ∧
    (∀ r : Request, isMultipartReq r = false →
      (parseRequest r).fields.toAddrs
        = (r.jsonParsed.getD ⟨none, none, none, none, none⟩).toAddrs.getD []) := by
  refine ⟨parseCommaOrArray_vList, parseCommaOrArray_vStr, by decide, by decide,
    fun r h => ?_, fun r h => ?_⟩
  · unfold parseRequest
    rw [if_pos h]
    rfl
  · unfold parseRequest
    rw [if_neg (by simp [h])]
    rfl

/-- C2 witness: the multipart and JSON equations at concrete requests. -/
theorem claim_C2_witness :
    (parseRequest ⟨some "multipart/form-data", [("to", .vStr "a@x.com,b@x.com")],
        none⟩).fields.toAddrs
      = parseCommaOrArray ((formGet [("to", FormVal.vStr "a@x.com,b@x.com")]
          "to").getD .vNull) ∧
    (parseRequest ⟨some "application/json", [],
        some ⟨none, some ["x@y.com"], none, none, none⟩⟩).fields.toAddrs
      = ((some (JsonBody.mk none (some ["x@y.com"]) none none none)).getD
          ⟨none, none, none, none, none⟩).toAddrs.getD [] :=
  ⟨claim_C2.2.2.2.2.1 ⟨some "multipart/form-data",
      [("to", .vStr "a@x.com,b@x.com")], none⟩ (by decide),
   claim_C2.2.2.2.2.2 ⟨some "application/json", [],
      some ⟨none, some ["x@y.com"], none, none, none⟩⟩ (by decide)⟩

/-- C3: whenever the parsed `from` is absent or invalid, the Dispatcher
returns a 400 JSON error whose message names `from` (and not `to`);
whenever `from` passes but the parsed `to` list is empty or contains an
invalid entry, it returns a 400 JSON error whose message names `to` (and
not `from`); in both cases it constructs no transport and sends nothing. -/
theorem claim_C3 :
    ∀ (p : ParsedRequest) (env : Env) (transport : MailMessage → SendOutcome),
      ((p.fields.fromAddr = "" ∨ isValidEmail p.fields.fromAddr = false) →
        ∃ m, dispatch p env transport =
            { status := 400, body := .err m, transports := [], sent := [] } ∧
          strHasSub "from" m = true ∧ strHasSub "to" m = false) ∧
      (p.fields.fromAddr ≠ "" → isValidEmail p.fields.fromAddr = true →
        (p.fields.toAddrs = [] ∨ ∃ e ∈ p.fields.toAddrs, isValidEmail e = false) →
        ∃ m, dispatch p env transport =
            { status := 400, body := .err m, transports := [], sent := [] } ∧
          strHasSub "to" m = true ∧ strHasSub "from" m = false) := by
  intro p env transport
  constructor
  · intro hbad
    have hf : (p.fields.fromAddr == "" || !isValidEmail p.fields.fromAddr)
        = true := by
      rcases hbad with h1 | h1 <;> simp [h1]
    refine ⟨"Valid 'from' email is required", ?_, by decide, by decide⟩
    simp only [dispatch]
    rw [if_pos hf]
  · intro h1 h2 hbad
    have hf : ¬((p.fields.fromAddr == "" || !isValidEmail p.fields.fromAddr)
        = true) := by
      simp [h1, h2]
    have ht : (p.fields.toAddrs.length == 0 ||
        !p.fields.toAddrs.all isValidEmail) = true := by
      rcases hbad with hb | ⟨e, he, hev⟩
      · simp [hb]
      · simp only [Bool.or_eq_true, Bool.not_eq_true']
        right
        cases hall : p.fields.toAddrs.all isValidEmail
        · rfl
        · exfalso
          have hx := List.all_eq_true.mp hall e he
          rw [hev] at hx
          exact Bool.noConfusion hx
    refine ⟨"Provide at least one valid 'to' email", ?_, by decide, by decide⟩
    simp only [dispatch]
    rw [if_neg hf, if_pos ht]

/-- C3 witness: an invalid `from` at a concrete request yields the 400
error naming `from` only, and a valid `from` with an empty `to` list
yields the 400 error naming `to` only, both without transport activity. -/
theorem claim_C3_witness :
    (∃ m, dispatch ⟨⟨"not-an-email", ["a@b.com"], "s", ""⟩, []⟩
        ⟨some "h", none, some "u", some "p", none⟩ (fun _ => .success "id") =
        { status := 400, body := .err m, transports := [], sent := [] } ∧
      strHasSub "from" m = true ∧ strHasSub "to" m = false) ∧
    (∃ m, dispatch ⟨⟨"a@b.com", [], "s", ""⟩, []⟩
        ⟨some "h", none, some "u", some "p", none⟩ (fun _ => .success "id") =
        { status := 400, body := .err m, transports := [], sent := [] } ∧
      strHasSub "to" m = true ∧ strHasSub "from" m = false) :=
  ⟨(claim_C3 ⟨⟨"not-an-email", ["a@b.com"], "s", ""⟩, []⟩
      ⟨some "h", none, some "u", some "p", none⟩ (fun _ => .success "id")).1
      (Or.inr (by decide)),
   (claim_C3 ⟨⟨"a@b.com", [], "s", ""⟩, []⟩
      ⟨some "h", none, some "u", some "p", none⟩ (fun _ => .success "id")).2
      (by decide) (by decide) (Or.inl rfl)⟩

/-- C4: with valid `from` and `to`, a missing `SMTP_HOST`, `SMTP_USER` or
`SMTP_PASS` makes the Dispatcher return the 500 configuration error,
constructing no transport and sending nothing. -/
theorem claim_C4 :
    ∀ (p : ParsedRequest) (env : Env) (transport : MailMessage → SendOutcome),
      p.fields.fromAddr ≠ "" → isValidEmail p.fields.fromAddr = true →
      p.fields.toAddrs ≠ [] → (∀ e ∈ p.fields.toAddrs, isValidEmail e = true) →
      (env.smtpHost = none ∨ env.smtpUser = none ∨ env.smtpPass = none) →
      dispatch p env transport =
        { status := 500,
          body := .err "SMTP credentials are not configured on the server",
          transports := [], sent := [] } := by
  intro p env transport h1 h2 h3 h4 h5
  have hf : ¬((p.fields.fromAddr == "" || !isValidEmail p.fields.fromAddr) = true) := by
    simp [h1, h2]
  have hall : p.fields.toAddrs.all isValidEmail = true := List.all_eq_true.mpr h4
  have ht : ¬((p.fields.toAddrs.length == 0 ||
      !p.fields.toAddrs.all isValidEmail) = true) := by
    simp [hall, h3, List.length_eq_zero]
  have hc : (jsFalsyOpt env.smtpHost || jsFalsyOpt env.smtpUser ||
      jsFalsyOpt env.smtpPass) = true := by
    rcases h5 with h | h | h <;> simp [jsFalsyOpt, h]
  simp only [dispatch]
  rw [if_neg hf, if_neg ht, if_pos hc]

/-- C4 witness: valid fields but no `SMTP_HOST` at a concrete request. -/
theorem claim_C4_witness :
    dispatch ⟨⟨"a@b.com", ["x@y.com"], "s", "<p>hi</p>"⟩, []⟩
      ⟨none, none, some "u", some "p", none⟩ (fun _ => .success "id") =
      { status := 500,
        body := .err "SMTP credentials are not configured on the server",
        transports := [], sent := [] } :=
  claim_C4 ⟨⟨"a@b.com", ["x@y.com"], "s", "<p>hi</p>"⟩, []⟩
    ⟨none, none, some "u", some "p", none⟩ (fun _ => .success "id")
    (by decide) (by decide) (by decide) (by decide) (Or.inl rfl)

theorem b64Index_b64Char : ∀ n : Nat, n < 64 → b64Index (b64Char n) = some n := by
  decide

theorem b64Index_pad : b64Index '=' = none := by
  decide

/-- Decoding inverts encoding on byte lists. -/
theorem b64_decode_encode : ∀ bs : List Nat, (∀ b ∈ bs, b < 256) →
    b64DecodeChars (base64EncodeChars bs) = bs
  | [], _ => rfl
  | [b1], h => by
    have hb1 : b1 < 256 := h b1 (by simp)
    have h1 : b1 / 4 < 64 := by omega
    have h2 : b1 % 4 * 16 < 64 := by omega
    simp only [base64EncodeChars, b64DecodeChars,
      b64Index_b64Char _ h1, b64Index_b64Char _ h2, b64Index_pad]
    have : b1 / 4 * 4 + b1 % 4 * 16 / 16 = b1 := by omega
    rw [this]
  | [b1, b2], h => by
    have hb1 : b1 < 256 := h b1 (by simp)
    have hb2 : b2 < 256 := h b2 (by simp)
    have h1 : b1 / 4 < 64 := by omega
    have h2 : b1 % 4 * 16 + b2 / 16 < 64 := by omega
    have h3 : b2 % 16 * 4 < 64 := by omega
    simp only [base64EncodeChars, b64DecodeChars,
      b64Index_b64Char _ h1, b64Index_b64Char _ h2, b64Index_b64Char _ h3,
      b64Index_pad]
    have e1 : b1 / 4 * 4 + (b1 % 4 * 16 + b2 / 16) / 16 = b1 := by omega
    have e2 : (b1 % 4 * 16 + b2 / 16) % 16 * 16 + b2 % 16 * 4 / 4 = b2 := by
      omega
    rw [e1, e2]
  | b1 :: b2 :: b3 :: rest, h => by
    have hb1 : b1 < 256 := h b1 (by simp)
    have hb2 : b2 < 256 := h b2 (by simp)
    have hb3 : b3 < 256 := h b3 (by simp)
    have h1 : b1 / 4 < 64 := by omega
    have h2 : b1 % 4 * 16 + b2 / 16 < 64 := by omega
    have h3 : b2 % 16 * 4 + b3 / 64 < 64 := by omega
    have h4 : b3 % 64 < 64 := by omega
    have ih := b64_decode_encode rest fun b hb => h b (by simp [hb])
    simp only [base64EncodeChars, b64DecodeChars,
      b64Index_b64Char _ h1, b64Index_b64Char _ h2, b64Index_b64Char _ h3,
      b64Index_b64Char _ h4, ih]
    have e1 : b1 / 4 * 4 + (b1 % 4 * 16 + b2 / 16) / 16 = b1 := by omega
    have e2 : (b1 % 4 * 16 + b2 / 16) % 16 * 16 + (b2 % 16 * 4 + b3 / 64) / 4
        = b2 := by omega
    have e3 : (b2 % 16 * 4 + b3 / 64) % 4 * 64 + b3 % 64 = b3 := by omega
    rw [e1, e2, e3]

/-- Base64 round-trip at the `String` level. -/
theorem base64_roundtrip (bs : List Nat) (h : ∀ b ∈ bs, b < 256) :
    base64Decode (base64Encode bs) = bs :=
  b64_decode_encode bs h

/-- C5: with valid fields, a configured environment and a succeeding
transport, one uploaded attachment flows through parsing and dispatch
unchanged: the response is a 200 carrying the transport's message id, and
the message handed to the transport carries exactly one attachment with
the uploaded filename and bytes (base64-decoded on the JSON path). -/
theorem claim_C5 :
    (∀ (form : List (String × FormVal)) (fn : String) (bytes : List Nat)
        (ftype : String),
      formGetAll form "attachments" = [.vFile fn bytes ftype] →
      (parseMultipart form).attachments =
        [⟨fn, bytes, if ftype == "" then none else some ftype⟩]) ∧
    (∀ (j : JsonBody) (a : JsonAttachment) (bytes : List Nat),
      j.attachments = some [a] → a.content = base64Encode bytes →
      (∀ b ∈ bytes, b < 256) →
      (parseJson (some j)).attachments = [⟨a.filename, bytes, a.contentType⟩]) ∧
    (∀ (p : ParsedRequest) (env : Env) (transport : MailMessage → SendOutcome)
        (mid : String) (att : Attachment),
      p.fields.fromAddr ≠ "" → isValidEmail p.fields.fromAddr = true →
      p.fields.toAddrs ≠ [] → (∀ e ∈ p.fields.toAddrs, isValidEmail e = true) →
      jsFalsyOpt env.smtpHost = false → jsFalsyOpt env.smtpUser = false →
      jsFalsyOpt env.smtpPass = false →
      p.attachments = [att] →
      (∀ m, transport m = .success mid) → mid ≠ "" →
      ∃ cfg msg, dispatch p env transport =
          { status := 200, body := .ok mid, transports := [cfg], sent := [msg] } ∧
        msg.attachments.length = 1 ∧ msg.attachments = [att]) := by
  refine ⟨fun form fn bytes ftype hget => ?_,
    fun j a bytes hatt hcontent hb => ?_,
    fun p env transport mid att h1 h2 h3 h4 hh hu hps hp htr hmid => ?_⟩
  · simp only [parseMultipart]
    rw [hget]
    rfl
  · simp only [parseJson, Option.getD_some]
    rw [hatt]
    simp only [Option.getD_some, List.map_cons, List.map_nil]
    rw [hcontent, base64_roundtrip bytes hb]
  · have hf : ¬((p.fields.fromAddr == "" || !isValidEmail p.fields.fromAddr)
        = true) := by
      simp [h1, h2]
    have hall : p.fields.toAddrs.all isValidEmail = true := List.all_eq_true.mpr h4
    have ht : ¬((p.fields.toAddrs.length == 0 ||
        !p.fields.toAddrs.all isValidEmail) = true) := by
      simp [hall, h3, List.length_eq_zero]
    have hc : ¬((jsFalsyOpt env.smtpHost || jsFalsyOpt env.smtpUser ||
        jsFalsyOpt env.smtpPass) = true) := by
      simp [hh, hu, hps]
    refine ⟨{ host := env.smtpHost.getD "", port := portOf env.smtpPort,
              secure := secureOf env.smtpSecure, user := env.smtpUser.getD "",
              pass := env.smtpPass.getD "" },
      { fromAddr := p.fields.fromAddr,
        toJoined := String.intercalate "," p.fields.toAddrs,
        subject := p.fields.subject, html := p.fields.bodyHtml,
        attachments := p.attachments }, ?_, ?_, ?_⟩
    · simp only [dispatch]
      rw [if_neg hf, if_neg ht, if_neg hc, htr]
    · simp only [hp, List.length_cons, List.length_nil]
    · simp only [hp]

/-- C5 witness: a concrete multipart form with one file, a concrete JSON
body with one base64 attachment, and a concrete dispatch through a
succeeding transport. -/
theorem claim_C5_witness :
    (parseMultipart [("from", .vStr "a@b.com"),
        ("attachments", .vFile "r.txt" [104, 105] "text/plain")]).attachments =
      [⟨"r.txt", [104, 105], if ("text/plain" == "") = true then none
        else some "text/plain"⟩] ∧
    (parseJson (some ⟨some "a@b.com", some ["x@y.com"], some "s", none,
        some [⟨"r.txt", base64Encode [104, 105], some "text/plain"⟩]⟩)).attachments
      = [⟨"r.txt", [104, 105], some "text/plain"⟩] ∧
    ∃ cfg msg,
      dispatch ⟨⟨"a@b.com", ["x@y.com"], "s", ""⟩,
          [⟨"r.txt", [104, 105], some "text/plain"⟩]⟩
        ⟨some "h", none, some "u", some "p", none⟩ (fun _ => .success "mid-1") =
        { status := 200, body := .ok "mid-1", transports := [cfg], sent := [msg] } ∧
      msg.attachments.length = 1 ∧
      msg.attachments = [⟨"r.txt", [104, 105], some "text/plain"⟩] :=
  ⟨claim_C5.1 [("from", .vStr "a@b.com"),
      ("attachments", .vFile "r.txt" [104, 105] "text/plain")]
      "r.txt" [104, 105] "text/plain" rfl,
   claim_C5.2.1 ⟨some "a@b.com", some ["x@y.com"], some "s", none,
      some [⟨"r.txt", base64Encode [104, 105], some "text/plain"⟩]⟩
      ⟨"r.txt", base64Encode [104, 105], some "text/plain"⟩ [104, 105]
      rfl rfl (by decide),
   claim_C5.2.2 ⟨⟨"a@b.com", ["x@y.com"], "s", ""⟩,
      [⟨"r.txt", [104, 105], some "text/plain"⟩]⟩
      ⟨some "h", none, some "u", some "p", none⟩ (fun _ => .success "mid-1")
      "mid-1" ⟨"r.txt", [104, 105], some "text/plain"⟩
      (by decide) (by decide) (by decide) (by decide) rfl rfl rfl rfl
      (fun m => rfl) (by decide)⟩

/-- C9: a non-multipart request whose body fails to parse as JSON is
treated as an empty body, so the Dispatcher returns the 400 `from`
validation error with no transport activity, not a parse failure or a
500. -/
theorem claim_C9 :
    ∀ (r : Request) (env : Env) (transport : MailMessage → SendOutcome),
      isMultipartReq r = false → r.jsonParsed = none →
      parseRequest r = ⟨⟨"", [], "", ""⟩, []⟩ ∧
      POST r env transport =
        { status := 400, body := .err "Valid 'from' email is required",
          transports := [], sent := [] } := by
  intro r env transport hm hj
  have hp : parseRequest r = ⟨⟨"", [], "", ""⟩, []⟩ := by
    unfold parseRequest
    rw [if_neg (by simp [hm]), hj]
    rfl
  refine ⟨hp, ?_⟩
  unfold POST
  rw [hp]
  rfl

/-- C9 witness: a concrete JSON request with an unparsable body. -/
theorem claim_C9_witness :
    parseRequest ⟨some "application/json", [], none⟩ = ⟨⟨"", [], "", ""⟩, []⟩ ∧
    POST ⟨some "application/json", [], none⟩
      ⟨some "h", none, some "u", some "p", none⟩ (fun _ => .success "id") =
      { status := 400, body := .err "Valid 'from' email is required",
        transports := [], sent := [] } :=
  claim_C9 ⟨some "application/json", [], none⟩
    ⟨some "h", none, some "u", some "p", none⟩ (fun _ => .success "id")
    (by decide) rfl

/-- C1 witness: the amended equivalence instantiated at a concrete accepted
string. -/
theorem claim_C1_witness : EmailShape (jsTrim "a.b+c@sub.example.co".data) :=
  (claim_C1.1 "a.b+c@sub.example.co").mp (by decide)
